import Mathlib

/-!
Verification of the coupon-report generator (`src/app.py`).

The Python code manipulates pandas dataframes; we embed the row-level
content of those dataframes as Lean lists.  A dataframe cell that may be
`NaN` is an `Option`; a Python function that can raise an exception
returns an `Option` whose `none` models the raised exception.  All string
primitives used by the code (`str.upper`, `str.split()`, `str.strip()`,
`in`, `str.replace`, lexicographic comparison) are re-implemented on
`List Char` so that every definition evaluates inside the kernel.
-/

namespace DCReports

/-! ### Character-list string primitives -/

/-- Models `chPre pat l` : does `l` start with `pat`? (helper for substring search). -/
def chPre : List Char → List Char → Bool
  | [], _ => true
  | _ :: _, [] => false
  | a :: as, b :: bs => a == b && chPre as bs

/-- Models `chSub needle hay` : does `needle` occur contiguously inside `hay`?
Models Python's `needle in hay` on strings. -/
def chSub (needle : List Char) : List Char → Bool
  | [] => needle.isEmpty
  | b :: bs => chPre needle (b :: bs) || chSub needle bs

/-- Python `needle in hay` for strings. -/
def hasSubstr (hay needle : String) : Bool := chSub needle.data hay.data

/-- Python `str.upper()` (ASCII case mapping, which is all the code relies on). -/
def pyUpper (s : String) : String := ⟨s.data.map Char.toUpper⟩

/-- Helper for `pySplit`: accumulates the current token (reversed). -/
def splitWsAux (cur : List Char) : List Char → List (List Char)
  | [] => if cur.isEmpty then [] else [cur.reverse]
  | c :: cs =>
    if c.isWhitespace then
      (if cur.isEmpty then splitWsAux [] cs else cur.reverse :: splitWsAux [] cs)
    else splitWsAux (c :: cur) cs

/-- Python `str.split()` with no argument: split on runs of whitespace,
discarding empty tokens. -/
def pySplit (s : String) : List String := (splitWsAux [] s.data).map (fun l => ⟨l⟩)

/-- Python `str.strip()`: drop leading and trailing whitespace. -/
def pyStrip (s : String) : String :=
  ⟨((s.data.dropWhile Char.isWhitespace).reverse.dropWhile Char.isWhitespace).reverse⟩

/-- Lexicographic (code-point) string order on char lists, as Python compares
strings.  Implemented from scratch so it evaluates in the kernel. -/
def chLeB : List Char → List Char → Bool
  | [], _ => true
  | _ :: _, [] => false
  | a :: as, b :: bs =>
    if a.toNat < b.toNat then true
    else if b.toNat < a.toNat then false
    else chLeB as bs

/-- Python `a <= b` on strings. -/
def strLeB (a b : String) : Bool := chLeB a.data b.data

/-! ### Generic list utilities

`dedupFirst` models pandas `unique()` / first-seen distinct values,
`insertLe`/`sortLe` model a comparison sort (used for `sorted(...)`,
`sort_values`, and the ordering of `groupby` keys), and `optTraverse`
models applying a possibly-raising function to each element, the whole
computation failing on the first exception. -/

/-- First-seen deduplication (pandas `unique()`), with an accumulator of
already seen values so the recursion is structural. -/
def dedupFirstAux [DecidableEq α] (seen : List α) : List α → List α
  | [] => []
  | a :: l => if a ∈ seen then dedupFirstAux seen l else a :: dedupFirstAux (a :: seen) l

/-- Distinct values of a list in order of first appearance. -/
def dedupFirst [DecidableEq α] (l : List α) : List α := dedupFirstAux [] l

/-- Insert into a list assumed sorted by `le`. -/
def insertLe (le : α → α → Bool) (a : α) : List α → List α
  | [] => [a]
  | b :: l => if le a b then a :: b :: l else b :: insertLe le a l

/-- Insertion sort by the boolean comparison `le`. -/
def sortLe (le : α → α → Bool) : List α → List α
  | [] => []
  | a :: l => insertLe le a (sortLe le l)

/-- Apply a possibly-failing function to every element; the first failure
(`none`, modelling a raised exception) makes the whole traversal fail. -/
def optTraverse (f : α → Option β) : List α → Option (List β)
  | [] => some []
  | a :: l =>
    match f a with
    | none => none
    | some b =>
      match optTraverse f l with
      | none => none
      | some r => some (b :: r)

/-! ### `get_client_short_name` (src/app.py lines 83-98)

The Python function takes a client-name cell (possibly `NaN`, modelled as
`none`) and returns a short name.  Its fallback branch
`str(client_name).split()[0] if client_name else 'Unknown'` raises an
`IndexError` when the name is a non-empty string consisting only of
whitespace; the returned `none` models that exception. -/

/-- The fixed abbreviation mapping `short_name_map`, in source order. -/
def short_name_map : List (String × String) :=
  [("SJS", "SJS"), ("KTMSS", "KTMSS"), ("HKWDA", "HKWDA"),
   ("PLK", "PLK"), ("YOT", "YOT"), ("SIS", "SIS")]

/-- The `for key in short_name_map: if key in client_upper` loop: first
abbreviation (in mapping order) occurring case-insensitively in the name. -/
def findAbbrev (s : String) : Option String :=
  (short_name_map.find? (fun kv => hasSubstr (pyUpper s) kv.1)).map (fun kv => kv.2)

/-- Models `get_client_short_name`; `none` result models the `IndexError` raised on a
non-empty all-whitespace name. -/
def get_client_short_name (client_name : Option String) : Option String :=
  match client_name with
  | none => some "Unknown"
  | some s =>
    match findAbbrev s with
    | some a => some a
    | none =>
      if s.data.isEmpty then some "Unknown"
      else
        match pySplit s with
        | [] => none
        | t :: _ => some t

/-! ### Weekly-batch tables (src/app.py lines 100-173)

A row of the combined weekly batch, keeping the two columns these tables
read: the `client_name` cell (`NaN` possible) and the resolved coupon-value
cell (`CouponValue` or `coupon_amount`). -/

structure WRow where
  client : Option String
  value : Nat
deriving DecidableEq, Repr

/-- The keys of `weekly_df.groupby('client_name')`: distinct non-`NaN` client
names in ascending order (pandas sorts group keys). -/
def clientKeys (batch : List WRow) : List String :=
  sortLe strLeB (dedupFirst (batch.filterMap (fun r => r.client)))

/-- Columns of the unstacked pivot: distinct coupon values among rows whose
`client_name` is present, ascending (pandas sorts). -/
def valueKeys (batch : List WRow) : List Nat :=
  sortLe (fun a b => decide (a ≤ b)) (dedupFirst (batch.filterMap (fun r => r.client.map (fun _ => r.value))))

/-- Models `groupby(['client_name', value_col]).size()` at one (client, value) key. -/
def pairCount (batch : List WRow) (c : String) (v : Nat) : Nat :=
  (batch.filter (fun r => decide (r.client = some c) && decide (r.value = v))).length

/-- Models `generate_coupon_purchased_table` (lines 100-140): `None` on an empty
batch; otherwise one table row per distinct raw client name (ascending),
labelled by its derived short name, with one cell per distinct coupon value
holding the (client, value) group size (`unstack(fill_value=0)`).
A raised exception yields `None`: either `get_client_short_name` raising
(line 117), or `to_dict('index')` at line 128 raising `ValueError` because
the relabelled index is not unique — i.e. when two distinct raw client names
derive the same short name; both are caught at line 136. -/
def generate_coupon_purchased_table (batch : List WRow) :
    Option (List (String × List (Nat × Nat))) :=
  if batch.isEmpty then none
  else
    match optTraverse (fun c =>
      (get_client_short_name (some c)).map (fun s =>
        (s, (valueKeys batch).map (fun v => (v, pairCount batch c v)))))
      (clientKeys batch) with
    | none => none
    | some tbl => if (tbl.map Prod.fst).Nodup then some tbl else none

/-- Number of batch rows whose DERIVED short name is `s` and value is `v` —
the quantity the spec claims each table cell equals. -/
def shortCellCount (batch : List WRow) (s : String) (v : Nat) : Nat :=
  (batch.filter (fun r =>
    decide (get_client_short_name r.client = some s) && decide (r.value = v))).length

/-- Models `weekly_df.groupby('client_name').size()` at one client key. -/
def clientCount (batch : List WRow) (c : String) : Nat :=
  (batch.filter (fun r => decide (r.client = some c))).length

/-- One row of the Distributed-Coupon table. -/
structure DRow where
  client : String
  used : Nat
  unused : Nat
  total : Nat
deriving DecidableEq, Repr

/-- Models `generate_distributed_coupon_table` (lines 142-173): `None` on an empty
batch; one row per distinct raw client name with `Used` = group size,
`Unused` = 0 and `Total` = the `Used` values. -/
def generate_distributed_coupon_table (batch : List WRow) : Option (List DRow) :=
  if batch.isEmpty then none
  else
    optTraverse (fun c =>
      (get_client_short_name (some c)).map (fun s =>
        DRow.mk s (clientCount batch c) 0 (clientCount batch c)))
      (clientKeys batch)

/-! ### Market-column resolution (claim C1)

Three call sites resolve "the market column" from the dataframe's column
names; `generate_used_market_table` (lines 183-195) tries `Market` first,
while `generate_pivot_worksheet` (lines 341-347) and
`generate_market_worksheets` (lines 404-410) try `NameChinese` first. -/

/-- Column resolution in `generate_used_market_table` (same branch chain is
used for the weekly and the full-ledger dataframe). -/
def resolveMarketColumnUsedMarket (cols : List String) : Option String :=
  if cols.contains "Market" then some "Market"
  else if cols.contains "NameChinese" then some "NameChinese"
  else if cols.contains "MarketCode" then some "MarketCode"
  else none

/-- Column resolution in `generate_pivot_worksheet`. -/
def resolveMarketColumnPivot (cols : List String) : Option String :=
  if cols.contains "NameChinese" then some "NameChinese"
  else if cols.contains "Market" then some "Market"
  else if cols.contains "MarketCode" then some "MarketCode"
  else none

/-- Column resolution in `generate_market_worksheets`. -/
def resolveMarketColumnWorksheets (cols : List String) : Option String :=
  if cols.contains "NameChinese" then some "NameChinese"
  else if cols.contains "Market" then some "Market"
  else if cols.contains "MarketCode" then some "MarketCode"
  else none

/-! ### Ledger rows and the count aggregators

A ledger (or market-report) row, keeping the resolved market-identifier cell
and the `ShopName` cell; either may be `NaN`. -/

structure LRow where
  market : Option String
  shop : Option String
deriving DecidableEq, Repr

/-- Multiplicity of one key in a column (`value_counts` count). -/
def countKey [DecidableEq α] (keys : List α) (k : α) : Nat :=
  (keys.filter (fun x => decide (x = k))).length

/-- Count-descending comparison used by `sort_values(ascending=False)`. -/
def cntGe (p q : α × Nat) : Bool := decide (q.2 ≤ p.2)

/-- Models `series.value_counts()`: distinct non-`NaN` values with multiplicities,
sorted by count descending (tie order is not observable in any claim). -/
def valueCountsDesc [DecidableEq α] (keys : List α) : List (α × Nat) :=
  sortLe cntGe ((dedupFirst keys).map (fun k => (k, countKey keys k)))

/-- The rows of one Used-Market table (`generate_used_market_table`,
lines 198-212 / 219-233): counts of the resolved market column. -/
def usedMarketRows (df : List LRow) : List (String × Nat) :=
  valueCountsDesc (df.filterMap (fun r => r.market))

/-- The rows of one Top-Merchant table (`generate_top_merchant_table`,
lines 250-264): `value_counts().head(15).sort_values(ascending=False)`. -/
def topMerchantRows (df : List LRow) : List (String × Nat) :=
  sortLe cntGe ((valueCountsDesc (df.filterMap (fun r => r.shop))).take 15)

/-! ### Pivot worksheet (src/app.py lines 337-397) -/

/-- The alias substitution applied to tenant display names. -/
def replaceMarae (s : String) : String :=
  if hasSubstr s "MARAE LIMITED" then s.replace "MARAE LIMITED" "U士多" else s

/-- One row of the Pivot worksheet. -/
structure PRow where
  market : String
  tenant : String
  count : Nat
deriving DecidableEq, Repr

/-- Models `daily_df.groupby(market_col).size()` at one market key. -/
def marketCount (ledger : List LRow) (m : String) : Nat :=
  (ledger.filter (fun r => decide (r.market = some m))).length

/-- Models `groupby([market_col, 'ShopName']).size()` at one (market, shop) key. -/
def marketShopCount (ledger : List LRow) (m s : String) : Nat :=
  (ledger.filter (fun r => decide (r.market = some m) && decide (r.shop = some s))).length

/-- Models `sorted(market_totals[market_col].unique())`: ascending distinct non-`NaN`
markets of the ledger. -/
def marketsSorted (ledger : List LRow) : List String :=
  sortLe strLeB (dedupFirst (ledger.filterMap (fun r => r.market)))

/-- Distinct shops appearing (with a non-`NaN` market match) in one market,
ascending — the pre-sort order of `tenant_data` restricted to that market. -/
def shopsOfMarket (ledger : List LRow) (m : String) : List String :=
  sortLe strLeB (dedupFirst (ledger.filterMap
    (fun r => if r.market = some m then r.shop else none)))

/-- Tenant rows of one market block: aliased shop name with its group count,
sorted by count descending. -/
def tenantRowsOf (ledger : List LRow) (m : String) : List (String × Nat) :=
  sortLe cntGe ((shopsOfMarket ledger m).map
    (fun s => (replaceMarae s, marketShopCount ledger m s)))

/-- The per-market blocks the pivot builder emits, in ascending market order. -/
def pivotBlocks (ledger : List LRow) : List (String × List (String × Nat)) :=
  (marketsSorted ledger).map (fun m => (m, tenantRowsOf ledger m))

/-- Models `generate_pivot_worksheet` (lines 337-397): for each market (ascending) a
total row (market name, empty tenant, market size) followed by its tenant
rows (empty market, aliased tenant, count) sorted by count descending.
Column presence is embedded structurally: an `LRow` carries the resolved
market column's cell and the `ShopName` cell. -/
def generate_pivot_worksheet (ledger : List LRow) : List PRow :=
  (pivotBlocks ledger).flatMap (fun b =>
    PRow.mk b.1 "" (marketCount ledger b.1) ::
      b.2.map (fun p => PRow.mk "" p.1 p.2))

/-! ### Market worksheets (src/app.py lines 399-529) -/

/-- Models `daily_df[market_col].dropna().unique()`: iteration order of the
per-market worksheets (first-seen order). -/
def marketsFirstSeen (ledger : List LRow) : List String :=
  dedupFirst (ledger.filterMap (fun r => r.market))

/-- Models `daily_df[daily_df[market_col] == market]` (lines 422 and 442). -/
def marketData (ledger : List LRow) (m : String) : List LRow :=
  ledger.filter (fun r => decide (r.market = some m))

/-- Models `all_tenants_in_market` (line 442): distinct non-`NaN` shops of the rows
of this market. -/
def allTenantsInMarket (ledger : List LRow) (m : String) : List String :=
  dedupFirst ((ledger.filter (fun r => decide (r.market = some m))).filterMap
    (fun r => r.shop))

/-- Models `tenants_with_usage_in_market` (line 445): distinct non-`NaN` shops of
`market_data` — the same filtered rows. -/
def tenantsWithUsageInMarket (ledger : List LRow) (m : String) : List String :=
  dedupFirst ((marketData ledger m).filterMap (fun r => r.shop))

/-- One entry of `merchant_rows` (right block of a market worksheet). -/
structure MRow where
  market : String
  tenant : String
  flag : String
deriving DecidableEq, Repr

/-- Models `merchant_rows` (lines 448-461): every tenant of the market in ascending
order, flagged "Y" when it appears in the usage set, "N" otherwise; the
display name is aliased AFTER the flag lookup. -/
def merchantRowsOf (ledger : List LRow) (m : String) : List MRow :=
  (sortLe strLeB (allTenantsInMarket ledger m)).map (fun t =>
    MRow.mk m (replaceMarae t)
      (if t ∈ tenantsWithUsageInMarket ledger m then "Y" else "N"))

/-- Models `n_count` (line 498): number of "N" flags among `merchant_rows`. -/
def nCountOf (ledger : List LRow) (m : String) : Nat :=
  ((merchantRowsOf ledger m).filter (fun r => decide (r.flag = "N"))).length

/-- Models `left_data` (lines 429-437): per-tenant usage counts in this market,
descending, with aliased display names. -/
def leftDataOf (ledger : List LRow) (m : String) : List (String × Nat) :=
  (valueCountsDesc ((marketData ledger m).filterMap (fun r => r.shop))).map
    (fun p => (replaceMarae p.1, p.2))

/-- A worksheet cell: Python writes either a string or an integer count. -/
inductive Cell where
  | s : String → Cell
  | n : Nat → Cell
deriving DecidableEq, Repr

/-- One row of the side-by-side combined table: the seven columns
`'Data of Coupon Used'`, `''`, `'  '`, `'Merchant List (Accept Food Coupon)'`,
`'   '`, `'    '`, `'No. of "N"'`. -/
structure CRow where
  dataOfCouponUsed : Cell
  c2 : Cell
  c3 : Cell
  merchantList : Cell
  c5 : Cell
  c6 : Cell
  noOfN : Cell
deriving DecidableEq, Repr

/-- The row the loop body (lines 468-512) builds at index `i`. -/
def combinedRowAt (left : List (String × Nat)) (mer : List MRow) (nCnt : Nat)
    (i : Nat) : CRow :=
  { dataOfCouponUsed :=
      if i = 0 then Cell.s "Data of Coupon Used"
      else if i = 1 then Cell.s "Tenant"
      else match left[i - 2]? with
        | some p => Cell.s p.1
        | none => Cell.s ""
    c2 :=
      if i = 0 then Cell.s ""
      else if i = 1 then Cell.s "Count"
      else match left[i - 2]? with
        | some p => Cell.n p.2
        | none => Cell.s ""
    c3 := Cell.s ""
    merchantList :=
      if i = 0 then Cell.s "Merchant List (Accept Food Coupon)"
      else if i = 1 then Cell.s "Market"
      else match mer[i - 2]? with
        | some r => Cell.s r.market
        | none => Cell.s ""
    c5 :=
      if i = 0 then Cell.s ""
      else if i = 1 then Cell.s "Tenant"
      else match mer[i - 2]? with
        | some r => Cell.s r.tenant
        | none => Cell.s ""
    c6 :=
      if i = 0 then Cell.s ""
      else if i = 1 then Cell.s "Have Coupon Used"
      else match mer[i - 2]? with
        | some r => Cell.s r.flag
        | none => Cell.s ""
    noOfN :=
      if i = 0 then Cell.s ""
      else if i = 1 then Cell.n nCnt
      else Cell.s "" }

/-- The combined table of one market's worksheet:
`max(len(left_data), len(merchant_rows)) + 2` rows built by `combinedRowAt`. -/
def marketWorksheet (ledger : List LRow) (m : String) : List CRow :=
  (List.range (max (leftDataOf ledger m).length (merchantRowsOf ledger m).length + 2)).map
    (combinedRowAt (leftDataOf ledger m) (merchantRowsOf ledger m) (nCountOf ledger m))

/-- Models `generate_market_worksheets` (lines 399-529): one combined table per
distinct market in first-seen order. -/
def generate_market_worksheets (ledger : List LRow) : List (List CRow) :=
  (marketsFirstSeen ledger).map (marketWorksheet ledger)

/-! ### Category enrichment (src/app.py lines 69-81) -/

/-- Dictionary lookup `mapping.get(x, default)`; the Sales-Category dict has
unique keys, looked up exactly. -/
def lookupMap (mapping : List (String × String)) (k : String) : Option String :=
  (mapping.find? (fun kv => decide (kv.1 = k))).map (fun kv => kv.2)

/-- Models `add_sales_category`: raises (`none`) iff the `ShopName` column is
missing; otherwise each row's category is the mapping's value at the
`fillna('')`-ed, trimmed shop name, defaulting to `''`. -/
def add_sales_category (hasShopName : Bool) (shopCells : List (Option String))
    (mapping : List (String × String)) : Option (List String) :=
  if hasShopName then
    some (shopCells.map (fun sh =>
      match lookupMap mapping (pyStrip (sh.getD "")) with
      | some cat => cat
      | none => ""))
  else none

/-! ### Record counts of `process_reports` (src/app.py lines 646-723) -/

/-- The three record counts the endpoint reports: `total_records` (length of
`pd.concat([daily_finance_df, combined_market_df])`), `previous_records`
(prior ledger length), `new_records` (combined new-batch length). -/
def process_reports_counts (daily : List LRow) (batches : List (List LRow)) :
    Nat × Nat × Nat :=
  ((daily ++ batches.flatten).length, daily.length, batches.flatten.length)

/-! ### Lemmas about the utilities -/

theorem chLeB_total : ∀ as bs, (chLeB as bs || chLeB bs as) = true
  | [], [] => rfl
  | [], _ :: _ => rfl
  | _ :: _, [] => rfl
  | a :: as, b :: bs => by
    simp only [chLeB]
    rcases Nat.lt_trichotomy a.toNat b.toNat with h | h | h
    · simp [h]
    · have h1 : ¬ a.toNat < b.toNat := by omega
      have h2 : ¬ b.toNat < a.toNat := by omega
      simp only [if_neg h1, if_neg h2]
      exact chLeB_total as bs
    · have h1 : ¬ a.toNat < b.toNat := by omega
      simp [h1, h]

theorem chLeB_trans :
    ∀ as bs cs, chLeB as bs = true → chLeB bs cs = true → chLeB as cs = true
  | [], _, _, _, _ => rfl
  | _ :: _, [], _, h, _ => by simp [chLeB] at h
  | _ :: _, _ :: _, [], _, h => by simp [chLeB] at h
  | a :: as, b :: bs, c :: cs, h1, h2 => by
    simp only [chLeB] at h1 h2 ⊢
    rcases Nat.lt_trichotomy a.toNat b.toNat with hab | hab | hab <;>
      rcases Nat.lt_trichotomy b.toNat c.toNat with hbc | hbc | hbc
    · rw [if_pos (by omega)]
    · rw [if_pos (by omega)]
    · rw [if_neg (by omega), if_pos hbc] at h2; exact absurd h2 (by simp)
    · rw [if_pos (by omega)]
    · rw [if_neg (by omega), if_neg (by omega)]
      rw [if_neg (by omega), if_neg (by omega)] at h1
      rw [if_neg (by omega), if_neg (by omega)] at h2
      exact chLeB_trans as bs cs h1 h2
    · rw [if_neg (by omega), if_pos hbc] at h2; exact absurd h2 (by simp)
    · rw [if_neg (by omega), if_pos hab] at h1; exact absurd h1 (by simp)
    · rw [if_neg (by omega), if_pos (by omega)] at h1; exact absurd h1 (by simp)
    · rw [if_neg (by omega), if_pos hab] at h1; exact absurd h1 (by simp)

theorem strLeB_total (a b : String) : (strLeB a b || strLeB b a) = true :=
  chLeB_total a.data b.data

theorem strLeB_trans (a b c : String) :
    strLeB a b = true → strLeB b c = true → strLeB a c = true :=
  chLeB_trans a.data b.data c.data

theorem mem_dedupFirstAux [DecidableEq α] :
    ∀ {l : List α} {seen x}, x ∈ dedupFirstAux seen l ↔ x ∈ l ∧ x ∉ seen := by
  intro l
  induction l with
  | nil => intro seen x; simp [dedupFirstAux]
  | cons a l ih =>
    intro seen x
    by_cases h : a ∈ seen
    · simp only [dedupFirstAux, if_pos h, ih, List.mem_cons]
      constructor
      · rintro ⟨hx, hs⟩; exact ⟨Or.inr hx, hs⟩
      · rintro ⟨hx | hx, hs⟩
        · subst hx; exact absurd h hs
        · exact ⟨hx, hs⟩
    · simp only [dedupFirstAux, if_neg h, List.mem_cons, ih, not_or]
      constructor
      · rintro (rfl | ⟨hx, _, hs⟩)
        · exact ⟨Or.inl rfl, h⟩
        · exact ⟨Or.inr hx, hs⟩
      · rintro ⟨rfl | hx, hs⟩
        · exact Or.inl rfl
        · by_cases hxa : x = a
          · exact Or.inl hxa
          · exact Or.inr ⟨hx, hxa, hs⟩

theorem nodup_dedupFirstAux [DecidableEq α] :
    ∀ {l : List α} {seen}, (dedupFirstAux seen l).Nodup := by
  intro l
  induction l with
  | nil => intro seen; simp [dedupFirstAux]
  | cons a l ih =>
    intro seen
    by_cases h : a ∈ seen
    · simpa [dedupFirstAux, if_pos h] using ih
    · simp only [dedupFirstAux, if_neg h, List.nodup_cons]
      refine ⟨fun hmem => ?_, ih⟩
      have := mem_dedupFirstAux.mp hmem
      exact this.2 (by simp)

theorem mem_dedupFirst [DecidableEq α] {l : List α} {x : α} :
    x ∈ dedupFirst l ↔ x ∈ l := by
  simp [dedupFirst, mem_dedupFirstAux]

theorem nodup_dedupFirst [DecidableEq α] {l : List α} : (dedupFirst l).Nodup :=
  nodup_dedupFirstAux

theorem insertLe_perm (le : α → α → Bool) (a : α) :
    ∀ l : List α, (insertLe le a l).Perm (a :: l)
  | [] => List.Perm.refl _
  | b :: l => by
    by_cases h : le a b = true
    · simp [insertLe, h]
    · simp only [insertLe, if_neg h]
      exact ((insertLe_perm le a l).cons b).trans (List.Perm.swap a b l)

theorem sortLe_perm (le : α → α → Bool) : ∀ l : List α, (sortLe le l).Perm l
  | [] => List.Perm.refl _
  | a :: l => (insertLe_perm le a (sortLe le l)).trans ((sortLe_perm le l).cons a)

theorem mem_sortLe {le : α → α → Bool} {l : List α} {x : α} :
    x ∈ sortLe le l ↔ x ∈ l :=
  (sortLe_perm le l).mem_iff

theorem length_sortLe (le : α → α → Bool) (l : List α) :
    (sortLe le l).length = l.length :=
  (sortLe_perm le l).length_eq

theorem nodup_sortLe {le : α → α → Bool} {l : List α} (h : l.Nodup) :
    (sortLe le l).Nodup :=
  ((sortLe_perm le l).nodup_iff).mpr h

theorem pairwise_insertLe {le : α → α → Bool}
    (htrans : ∀ a b c, le a b = true → le b c = true → le a c = true)
    (htot : ∀ a b, (le a b || le b a) = true) (a : α) :
    ∀ {l : List α}, l.Pairwise (fun x y => le x y = true) →
      (insertLe le a l).Pairwise (fun x y => le x y = true) := by
  intro l
  induction l with
  | nil => intro _; simp [insertLe]
  | cons b l ih =>
    intro h
    rw [List.pairwise_cons] at h
    by_cases hab : le a b = true
    · simp only [insertLe, if_pos hab, List.pairwise_cons]
      refine ⟨?_, h⟩
      intro x hx
      rcases List.mem_cons.mp hx with rfl | hx2
      · exact hab
      · exact htrans a b x hab (h.1 x hx2)
    · simp only [insertLe, if_neg hab, List.pairwise_cons]
      have hba : le b a = true := by
        have htb := htot a b
        rcases Bool.or_eq_true_iff.mp htb with h1 | h1
        · exact absurd h1 hab
        · exact h1
      refine ⟨?_, ih h.2⟩
      intro x hx
      have hx2 : x ∈ a :: l := (insertLe_perm le a l).mem_iff.mp hx
      rcases List.mem_cons.mp hx2 with rfl | hx3
      · exact hba
      · exact h.1 x hx3

theorem pairwise_sortLe {le : α → α → Bool}
    (htrans : ∀ a b c, le a b = true → le b c = true → le a c = true)
    (htot : ∀ a b, (le a b || le b a) = true) :
    ∀ l : List α, (sortLe le l).Pairwise (fun x y => le x y = true)
  | [] => by simp [sortLe]
  | a :: l => pairwise_insertLe htrans htot a (pairwise_sortLe htrans htot l)

theorem optTraverse_isSome {f : α → Option β} :
    ∀ {l : List α}, (∀ a ∈ l, (f a).isSome) → (optTraverse f l).isSome
  | [], _ => rfl
  | a :: l, h => by
    have ha : (f a).isSome := h a (by simp)
    obtain ⟨b, hb⟩ := Option.isSome_iff_exists.mp ha
    have hl := optTraverse_isSome (f := f) (l := l) (fun x hx => h x (by simp [hx]))
    obtain ⟨r, hr⟩ := Option.isSome_iff_exists.mp hl
    simp [optTraverse, hb, hr]

theorem optTraverse_length {f : α → Option β} :
    ∀ {l : List α} {r : List β}, optTraverse f l = some r → r.length = l.length := by
  intro l
  induction l with
  | nil => intro r h; simp [optTraverse] at h; simp [← h]
  | cons a l ih =>
    intro r h
    simp only [optTraverse] at h
    cases hfa : f a with
    | none => rw [hfa] at h; exact absurd h (by simp)
    | some b =>
      rw [hfa] at h
      cases hrest : optTraverse f l with
      | none => rw [hrest] at h; exact absurd h (by simp)
      | some r' =>
        rw [hrest] at h
        cases h
        simp [ih hrest]

theorem optTraverse_zip {f : α → Option β} :
    ∀ {l : List α} {r : List β}, optTraverse f l = some r →
      ∀ p ∈ l.zip r, f p.1 = some p.2 := by
  intro l
  induction l with
  | nil => intro r h p hp; simp at hp
  | cons a l ih =>
    intro r h p hp
    simp only [optTraverse] at h
    cases hfa : f a with
    | none => rw [hfa] at h; exact absurd h (by simp)
    | some b =>
      rw [hfa] at h
      cases hrest : optTraverse f l with
      | none => rw [hrest] at h; exact absurd h (by simp)
      | some r' =>
        rw [hrest] at h
        cases h
        rcases List.mem_cons.mp hp with rfl | hp'
        · exact hfa
        · exact ih hrest p hp'

theorem optTraverse_mem {f : α → Option β} :
    ∀ {l : List α} {r : List β}, optTraverse f l = some r →
      ∀ b ∈ r, ∃ a ∈ l, f a = some b := by
  intro l
  induction l with
  | nil =>
    intro r h b hb
    simp only [optTraverse, Option.some.injEq] at h
    subst h
    exact absurd hb (List.not_mem_nil b)
  | cons a l ih =>
    intro r h b hb
    simp only [optTraverse] at h
    cases hfa : f a with
    | none => rw [hfa] at h; exact absurd h (by simp)
    | some b' =>
      rw [hfa] at h
      cases hrest : optTraverse f l with
      | none => rw [hrest] at h; exact absurd h (by simp)
      | some r' =>
        rw [hrest] at h
        cases h
        rcases List.mem_cons.mp hb with rfl | hb'
        · exact ⟨a, by simp, hfa⟩
        · obtain ⟨x, hx, hfx⟩ := ih hrest b hb'
          exact ⟨x, by simp [hx], hfx⟩

theorem optTraverse_forall {f : α → Option β} :
    ∀ {l : List α} {r : List β}, optTraverse f l = some r →
      ∀ a ∈ l, ∃ b ∈ r, f a = some b := by
  intro l
  induction l with
  | nil => intro r h a ha; simp at ha
  | cons a l ih =>
    intro r h x hx
    simp only [optTraverse] at h
    cases hfa : f a with
    | none => rw [hfa] at h; exact absurd h (by simp)
    | some b =>
      rw [hfa] at h
      cases hrest : optTraverse f l with
      | none => rw [hrest] at h; exact absurd h (by simp)
      | some r' =>
        rw [hrest] at h
        cases h
        rcases List.mem_cons.mp hx with rfl | hx'
        · exact ⟨b, by simp, hfa⟩
        · obtain ⟨y, hy, hfy⟩ := ih hrest x hx'
          exact ⟨y, by simp [hy], hfy⟩

theorem optTraverse_pairwise {f : α → Option β} {R : β → β → Prop} {Q : α → α → Prop}
    (hQ : ∀ a1 a2 b1 b2, f a1 = some b1 → f a2 = some b2 → R b1 b2 → Q a1 a2) :
    ∀ {l : List α} {r : List β}, optTraverse f l = some r → r.Pairwise R → l.Pairwise Q := by
  intro l
  induction l with
  | nil => intro r _ _; exact List.Pairwise.nil
  | cons a l ih =>
    intro r h hR
    simp only [optTraverse] at h
    cases hfa : f a with
    | none => rw [hfa] at h; exact absurd h (by simp)
    | some b =>
      rw [hfa] at h
      cases hrest : optTraverse f l with
      | none => rw [hrest] at h; exact absurd h (by simp)
      | some r2 =>
        rw [hrest] at h
        cases h
        rw [List.pairwise_cons] at hR ⊢
        refine ⟨?_, ih hrest hR.2⟩
        intro a2 ha2
        obtain ⟨b2, hb2, hfb2⟩ := optTraverse_forall hrest a2 ha2
        exact hQ a a2 b b2 hfa hfb2 (hR.1 b2 hb2)

theorem zip_map_self {f : α → β} :
    ∀ {l : List α}, ∀ p ∈ l.zip (l.map f), p.2 = f p.1 := by
  intro l
  induction l with
  | nil => intro p hp; exact absurd hp (List.not_mem_nil p)
  | cons a l ih =>
    intro p hp
    rcases List.mem_cons.mp hp with rfl | hp2
    · rfl
    · exact ih p hp2

/-! ### Lemmas about the embedded operations -/

theorem pairwise_snd_ge_sortLe {α : Type} (l : List (α × Nat)) :
    ((sortLe cntGe l).map Prod.snd).Pairwise (· ≥ ·) := by
  have htrans : ∀ a b c : α × Nat, cntGe a b = true → cntGe b c = true → cntGe a c = true := by
    intro a b c hab hbc
    simp only [cntGe, decide_eq_true_eq] at hab hbc ⊢
    omega
  have htot : ∀ a b : α × Nat, (cntGe a b || cntGe b a) = true := by
    intro a b
    simp only [cntGe, Bool.or_eq_true, decide_eq_true_eq]
    omega
  have h := pairwise_sortLe htrans htot l
  rw [List.pairwise_map]
  refine h.imp ?_
  intro a b hab
  simpa [cntGe, ge_iff_le] using hab

theorem mem_clientKeys {batch : List WRow} {c : String} :
    c ∈ clientKeys batch ↔ ∃ r ∈ batch, r.client = some c := by
  simp [clientKeys, mem_sortLe, mem_dedupFirst, List.mem_filterMap]

theorem mem_valueKeys {batch : List WRow} {v : Nat} :
    v ∈ valueKeys batch ↔ ∃ r ∈ batch, r.client.isSome ∧ r.value = v := by
  simp only [valueKeys, mem_sortLe, mem_dedupFirst, List.mem_filterMap]
  constructor
  · rintro ⟨r, hr, hmap⟩
    cases hc : r.client with
    | none => rw [hc] at hmap; simp at hmap
    | some c =>
      rw [hc] at hmap
      simp only [Option.map_some', Option.some.injEq] at hmap
      exact ⟨r, hr, by simp [hc], hmap⟩
  · rintro ⟨r, hr, hsome, rfl⟩
    cases hc : r.client with
    | none => rw [hc] at hsome; simp at hsome
    | some c => exact ⟨r, hr, by simp [hc]⟩

theorem pairCount_eq_shortCellCount (batch : List WRow)
    (hpres : ∀ r ∈ batch, r.client.isSome)
    (hinj : (clientKeys batch).Pairwise
      (fun c1 c2 => get_client_short_name (some c1) ≠ get_client_short_name (some c2)))
    {c : String} (hc : c ∈ clientKeys batch) {s : String}
    (hs : get_client_short_name (some c) = some s) (v : Nat) :
    pairCount batch c v = shortCellCount batch s v := by
  unfold pairCount shortCellCount
  refine congrArg List.length (List.filter_congr ?_)
  intro r hr
  have hiff : (r.client = some c) ↔ (get_client_short_name r.client = some s) := by
    constructor
    · intro h; rw [h, hs]
    · intro h
      obtain ⟨c2, hc2⟩ := Option.isSome_iff_exists.mp (hpres r hr)
      rw [hc2] at h ⊢
      have hc2mem : c2 ∈ clientKeys batch := mem_clientKeys.mpr ⟨r, hr, hc2⟩
      by_cases heq : c2 = c
      · rw [heq]
      · have hsymm : Symmetric
            (fun c1 c2 => get_client_short_name (some c1) ≠ get_client_short_name (some c2)) := by
          intro x y hxy he
          exact hxy he.symm
        have hne := hinj.forall hsymm hc2mem hc heq
        rw [h, hs] at hne
        exact absurd rfl hne
  have hdec : decide (r.client = some c) = decide (get_client_short_name r.client = some s) :=
    decide_eq_decide.mpr hiff
  rw [hdec]

/-! ### Claim C1 : market-column resolution priority -/

/-- Claim C1, counterexample: on a row-set having both the `Market` and the
`NameChinese` columns, the pivot builder resolves `NameChinese` while the
Used-Market aggregator resolves `Market`, so the claimed priority equality
fails. -/
theorem c1_resolution_counterexample :
    resolveMarketColumnPivot ["Market", "NameChinese"] = some "NameChinese" ∧
    resolveMarketColumnUsedMarket ["Market", "NameChinese"] = some "Market" ∧
    resolveMarketColumnPivot ["Market", "NameChinese"] ≠
      resolveMarketColumnUsedMarket ["Market", "NameChinese"] := by
  decide

/-- Claim C1 (amended): the pivot builder and the market worksheet builder
resolve the market column by the priority `NameChinese`, `Market`,
`MarketCode`.  They always agree with each other, and they choose the same
column as the Used-Market aggregator exactly when the row-set does not
contain both the `Market` and `NameChinese` columns. -/
theorem c1_resolution_amended (cols : List String) :
    resolveMarketColumnPivot cols = resolveMarketColumnWorksheets cols ∧
    (resolveMarketColumnPivot cols = resolveMarketColumnUsedMarket cols ↔
      ¬ ("Market" ∈ cols ∧ "NameChinese" ∈ cols)) := by
  by_cases hM : "Market" ∈ cols <;> by_cases hN : "NameChinese" ∈ cols <;>
    simp [resolveMarketColumnPivot, resolveMarketColumnWorksheets,
      resolveMarketColumnUsedMarket, hM, hN]

/-- Claim C1 witness: the amended statement applied to a row-set carrying both
the explicit and the localized market-name columns — the side on which the
pivot builder and the aggregator disagree. -/
theorem c1_resolution_amended_witness :
    resolveMarketColumnPivot ["Market", "NameChinese"] =
        resolveMarketColumnWorksheets ["Market", "NameChinese"] ∧
    (resolveMarketColumnPivot ["Market", "NameChinese"] =
        resolveMarketColumnUsedMarket ["Market", "NameChinese"] ↔
      ¬ ("Market" ∈ ["Market", "NameChinese"] ∧
          "NameChinese" ∈ ["Market", "NameChinese"])) :=
  c1_resolution_amended ["Market", "NameChinese"]

/-! ### Claim C3 : the short-name derivation -/

/-- Claim C3, counterexample: on the non-empty all-whitespace name `" "` the
derivation raises an `IndexError` (modelled by `none`) instead of returning
a result, refuting the claim that it never errors on such strings. -/
theorem c3_short_name_counterexample : get_client_short_name (some " ") = none := by
  decide

/-- Claim C3 (amended): the short name is the first abbreviation of the fixed
set occurring case-insensitively in the name; otherwise the first whitespace
token; `"Unknown"` for a missing name and for the empty string.  The
derivation errors exactly on a non-empty name with no abbreviation match and
no whitespace-delimited token (an all-whitespace name). -/
theorem c3_short_name_amended :
    get_client_short_name none = some "Unknown" ∧
    (∀ s a, findAbbrev s = some a → get_client_short_name (some s) = some a) ∧
    (∀ s t ts, findAbbrev s = none → pySplit s = t :: ts →
      get_client_short_name (some s) = some t) ∧
    (∀ s, findAbbrev s = none → s.data.isEmpty = true →
      get_client_short_name (some s) = some "Unknown") ∧
    (∀ s, get_client_short_name (some s) = none ↔
      (findAbbrev s = none ∧ s.data.isEmpty = false ∧ pySplit s = [])) := by
  refine ⟨rfl, ?_, ?_, ?_, ?_⟩
  · intro s a h
    simp [get_client_short_name, h]
  · intro s t ts hf hsplit
    simp only [get_client_short_name, hf]
    by_cases he : s.data.isEmpty
    · have hd : s.data = [] := by simpa using he
      have : pySplit s = [] := by simp [pySplit, hd, splitWsAux]
      rw [this] at hsplit
      exact absurd hsplit (by simp)
    · simp [he, hsplit]
  · intro s hf he
    simp [get_client_short_name, hf, he]
  · intro s
    constructor
    · intro h
      simp only [get_client_short_name] at h
      cases hf : findAbbrev s with
      | some a => rw [hf] at h; exact absurd h (by simp)
      | none =>
        rw [hf] at h
        by_cases he : s.data.isEmpty
        · rw [if_pos he] at h; exact absurd h (by simp)
        · rw [if_neg he] at h
          cases hsp : pySplit s with
          | nil => exact ⟨rfl, by simpa using he, rfl⟩
          | cons t ts => rw [hsp] at h; exact absurd h (by simp)
    · rintro ⟨hf, he, hs⟩
      simp [get_client_short_name, hf, he, hs]

/-- Claim C3 witness: the amended fallback branch applied to a two-token name
with no abbreviation match. -/
theorem c3_short_name_amended_witness :
    get_client_short_name (some "hello world") = some "hello" :=
  c3_short_name_amended.2.2.1 "hello world" "hello" ["world"] (by decide) (by decide)

/-! ### Claim C8 : category enrichment -/

/-- Claim C8: enrichment fails (raises) iff the `ShopName` column is missing;
with the column present every row gets the mapping's category of its trimmed
(`fillna('')`-ed) shop name, or the empty string when the key is unmapped —
and never an error. -/
theorem c8_add_sales_category (hasShopName : Bool) (shopCells : List (Option String))
    (mapping : List (String × String)) :
    (add_sales_category hasShopName shopCells mapping = none ↔ hasShopName = false) ∧
    (∀ out, add_sales_category hasShopName shopCells mapping = some out →
      out.length = shopCells.length ∧
      ∀ p ∈ shopCells.zip out,
        (∀ cat, lookupMap mapping (pyStrip (p.1.getD "")) = some cat → p.2 = cat) ∧
        (lookupMap mapping (pyStrip (p.1.getD "")) = none → p.2 = "")) := by
  cases hasShopName with
  | false => simp [add_sales_category]
  | true =>
    refine ⟨by simp [add_sales_category], ?_⟩
    intro out hout
    simp only [add_sales_category, if_pos, Option.some.injEq] at hout
    subst hout
    refine ⟨by simp, ?_⟩
    intro p hp
    have h2 := zip_map_self p hp
    constructor
    · intro cat hcat
      rw [h2, hcat]
    · intro hnone
      rw [h2, hnone]

/-- Claim C8 witness: the theorem applied to a concrete mapping and cells with
a mapped (after trimming), an unmapped, and a missing shop name. -/
theorem c8_add_sales_category_witness :
    (add_sales_category true [some " ShopA ", some "Other", none] [("ShopA", "Food")] = none ↔
      true = false) ∧
    (∀ out,
      add_sales_category true [some " ShopA ", some "Other", none] [("ShopA", "Food")] = some out →
      out.length = [some " ShopA ", some "Other", none].length ∧
      ∀ p ∈ [some " ShopA ", some "Other", none].zip out,
        (∀ cat, lookupMap [("ShopA", "Food")] (pyStrip (p.1.getD "")) = some cat → p.2 = cat) ∧
        (lookupMap [("ShopA", "Food")] (pyStrip (p.1.getD "")) = none → p.2 = "")) :=
  c8_add_sales_category true [some " ShopA ", some "Other", none] [("ShopA", "Food")]

/-! ### Claim C10 : record counts of the endpoint -/

/-- Claim C10: the reported `total_records` equals `previous_records` plus
`new_records` — the concatenated ledger's length is the prior baseline length
plus the combined new-batch length. -/
theorem c10_total_records (daily : List LRow) (batches : List (List LRow)) :
    (process_reports_counts daily batches).1 =
      (process_reports_counts daily batches).2.1 + (process_reports_counts daily batches).2.2 := by
  simp [process_reports_counts]

/-- Claim C10 witness: the count identity at a concrete baseline and two
new-batch files. -/
theorem c10_total_records_witness :
    (process_reports_counts [LRow.mk (some "A") none]
        [[LRow.mk (some "B") none], [LRow.mk (some "C") none]]).1 =
      (process_reports_counts [LRow.mk (some "A") none]
        [[LRow.mk (some "B") none], [LRow.mk (some "C") none]]).2.1 +
      (process_reports_counts [LRow.mk (some "A") none]
        [[LRow.mk (some "B") none], [LRow.mk (some "C") none]]).2.2 :=
  c10_total_records [LRow.mk (some "A") none]
    [[LRow.mk (some "B") none], [LRow.mk (some "C") none]]

/-! ### Claim C6 : sortedness and size of Used-Market / Top-Merchant -/

/-- Claim C6, counterexample: two markets with one row each tie at count 1, so
the Used-Market counts are not STRICTLY descending. -/
theorem c6_sorted_counterexample :
    ¬ (((usedMarketRows [LRow.mk (some "A") (some "S"), LRow.mk (some "B") (some "T")]).map
        Prod.snd).Pairwise (· > ·)) := by
  decide

/-- Claim C6 (amended): the Used-Market and Top-Merchant tables are sorted
non-increasing by count (ties make the order non-strict), and the
Top-Merchant table never has more than 15 rows. -/
theorem c6_sorted_amended (df : List LRow) :
    ((usedMarketRows df).map Prod.snd).Pairwise (· ≥ ·) ∧
    ((topMerchantRows df).map Prod.snd).Pairwise (· ≥ ·) ∧
    (topMerchantRows df).length ≤ 15 := by
  refine ⟨?_, ?_, ?_⟩
  · simp only [usedMarketRows, valueCountsDesc]
    exact pairwise_snd_ge_sortLe _
  · simp only [topMerchantRows]
    exact pairwise_snd_ge_sortLe _
  · simp only [topMerchantRows]
    rw [length_sortLe]
    exact List.length_take_le 15 _

/-- Claim C6 witness: the amended statement at the tying two-market ledger. -/
theorem c6_sorted_amended_witness :
    ((usedMarketRows [LRow.mk (some "A") (some "S"), LRow.mk (some "B") (some "T")]).map
      Prod.snd).Pairwise (· ≥ ·) ∧
    ((topMerchantRows [LRow.mk (some "A") (some "S"), LRow.mk (some "B") (some "T")]).map
      Prod.snd).Pairwise (· ≥ ·) ∧
    (topMerchantRows [LRow.mk (some "A") (some "S"), LRow.mk (some "B") (some "T")]).length ≤ 15 :=
  c6_sorted_amended [LRow.mk (some "A") (some "S"), LRow.mk (some "B") (some "T")]

/-! ### Claim C4 : coverage flags of the market worksheets -/

/-- Claim C4: in every market worksheet's right block a tenant's flag is "Y"
exactly when it has at least one usage row in that market; because the listed
tenants are computed from the same market-filtered rows as the usage set,
every flag is "Y", `n_count` is 0, and the sheet's second header row holds 0
in its 'No. of "N"' cell. -/
theorem c4_coverage_flags (ledger : List LRow) (m : String) :
    (∀ t ∈ allTenantsInMarket ledger m,
      (t ∈ tenantsWithUsageInMarket ledger m ↔
        ∃ r ∈ ledger, r.market = some m ∧ r.shop = some t)) ∧
    (∀ row ∈ merchantRowsOf ledger m, row.flag = "Y") ∧
    nCountOf ledger m = 0 ∧
    (∀ row1, (marketWorksheet ledger m)[1]? = some row1 → row1.noOfN = Cell.n 0) := by
  have hsets : tenantsWithUsageInMarket ledger m = allTenantsInMarket ledger m := rfl
  have husage : ∀ t, t ∈ tenantsWithUsageInMarket ledger m ↔
      ∃ r ∈ ledger, r.market = some m ∧ r.shop = some t := by
    intro t
    simp only [tenantsWithUsageInMarket, marketData, mem_dedupFirst, List.mem_filterMap,
      List.mem_filter, decide_eq_true_eq]
    constructor
    · rintro ⟨r, ⟨hr, hrm⟩, hs⟩
      exact ⟨r, hr, hrm, hs⟩
    · rintro ⟨r, hr, hrm, hs⟩
      exact ⟨r, ⟨hr, hrm⟩, hs⟩
  have hY : ∀ row ∈ merchantRowsOf ledger m, row.flag = "Y" := by
    intro row hrow
    obtain ⟨t, ht, rfl⟩ := List.mem_map.mp hrow
    have ht2 : t ∈ tenantsWithUsageInMarket ledger m := by
      rw [hsets]
      exact mem_sortLe.mp ht
    simp [ht2]
  have hn0 : nCountOf ledger m = 0 := by
    have hfe : (merchantRowsOf ledger m).filter (fun r => decide (r.flag = "N")) =
        (merchantRowsOf ledger m).filter (fun _ => false) := by
      refine List.filter_congr ?_
      intro r hr
      simp [hY r hr]
    simp [nCountOf, hfe]
  refine ⟨fun t _ => husage t, hY, hn0, ?_⟩
  intro row1 h1
  have hlt : (1 : Nat) <
      max (leftDataOf ledger m).length (merchantRowsOf ledger m).length + 2 := by
    omega
  have hsome : (marketWorksheet ledger m)[1]? =
      some (combinedRowAt (leftDataOf ledger m) (merchantRowsOf ledger m)
        (nCountOf ledger m) 1) := by
    simp [marketWorksheet, List.getElem?_map, List.getElem?_range hlt]
  rw [hsome] at h1
  injection h1 with h1
  rw [← h1]
  simp [combinedRowAt, hn0]

/-- Claim C4 witness: the flag/count invariants at a one-row ledger. -/
theorem c4_coverage_flags_witness :
    (∀ t ∈ allTenantsInMarket [LRow.mk (some "M1") (some "A")] "M1",
      (t ∈ tenantsWithUsageInMarket [LRow.mk (some "M1") (some "A")] "M1" ↔
        ∃ r ∈ [LRow.mk (some "M1") (some "A")], r.market = some "M1" ∧ r.shop = some t)) ∧
    (∀ row ∈ merchantRowsOf [LRow.mk (some "M1") (some "A")] "M1", row.flag = "Y") ∧
    nCountOf [LRow.mk (some "M1") (some "A")] "M1" = 0 ∧
    (∀ row1, (marketWorksheet [LRow.mk (some "M1") (some "A")] "M1")[1]? = some row1 →
      row1.noOfN = Cell.n 0) :=
  c4_coverage_flags [LRow.mk (some "M1") (some "A")] "M1"

/-! ### Claim C9 : shape of the combined worksheet table -/

/-- Claim C9: every produced market worksheet has
`max(left rows, right rows) + 2` rows, and the cells of the shorter block
beyond its own length are all empty strings. -/
theorem c9_worksheet_shape (ledger : List LRow) (m : String)
    (_hm : m ∈ marketsFirstSeen ledger) :
    (marketWorksheet ledger m).length =
      max (leftDataOf ledger m).length (merchantRowsOf ledger m).length + 2 ∧
    (∀ i, 2 ≤ i → (leftDataOf ledger m).length ≤ i - 2 →
      ∀ row, (marketWorksheet ledger m)[i]? = some row →
        row.dataOfCouponUsed = Cell.s "" ∧ row.c2 = Cell.s "") ∧
    (∀ i, 2 ≤ i → (merchantRowsOf ledger m).length ≤ i - 2 →
      ∀ row, (marketWorksheet ledger m)[i]? = some row →
        row.merchantList = Cell.s "" ∧ row.c5 = Cell.s "" ∧ row.c6 = Cell.s "" ∧
          row.noOfN = Cell.s "") := by
  have hlen : (marketWorksheet ledger m).length =
      max (leftDataOf ledger m).length (merchantRowsOf ledger m).length + 2 := by
    simp [marketWorksheet]
  refine ⟨hlen, ?_, ?_⟩
  · intro i h2 hpad row hrow
    have hi : i < max (leftDataOf ledger m).length (merchantRowsOf ledger m).length + 2 := by
      by_contra hcon
      have hge : (marketWorksheet ledger m).length ≤ i := by rw [hlen]; omega
      rw [List.getElem?_eq_none hge] at hrow
      exact absurd hrow (by simp)
    have hsome : (marketWorksheet ledger m)[i]? =
        some (combinedRowAt (leftDataOf ledger m) (merchantRowsOf ledger m)
          (nCountOf ledger m) i) := by
      simp [marketWorksheet, List.getElem?_map, List.getElem?_range hi]
    rw [hsome] at hrow
    injection hrow with hrow
    rw [← hrow]
    have h0 : i ≠ 0 := by omega
    have h1 : i ≠ 1 := by omega
    have hnone : (leftDataOf ledger m)[i - 2]? = none := List.getElem?_eq_none hpad
    simp [combinedRowAt, h0, h1, hnone]
  · intro i h2 hpad row hrow
    have hi : i < max (leftDataOf ledger m).length (merchantRowsOf ledger m).length + 2 := by
      by_contra hcon
      have hge : (marketWorksheet ledger m).length ≤ i := by rw [hlen]; omega
      rw [List.getElem?_eq_none hge] at hrow
      exact absurd hrow (by simp)
    have hsome : (marketWorksheet ledger m)[i]? =
        some (combinedRowAt (leftDataOf ledger m) (merchantRowsOf ledger m)
          (nCountOf ledger m) i) := by
      simp [marketWorksheet, List.getElem?_map, List.getElem?_range hi]
    rw [hsome] at hrow
    injection hrow with hrow
    rw [← hrow]
    have h0 : i ≠ 0 := by omega
    have h1 : i ≠ 1 := by omega
    have hnone : (merchantRowsOf ledger m)[i - 2]? = none := List.getElem?_eq_none hpad
    simp [combinedRowAt, h0, h1, hnone]

/-- Claim C9 witness: the shape invariants at a produced worksheet of a
two-row ledger in which one row has a missing shop name (so the blocks have
different lengths). -/
theorem c9_worksheet_shape_witness :
    ("M2" ∈ marketsFirstSeen [LRow.mk (some "M2") (some "B"), LRow.mk (some "M2") none]) ∧
    ((marketWorksheet [LRow.mk (some "M2") (some "B"), LRow.mk (some "M2") none] "M2").length =
      max (leftDataOf [LRow.mk (some "M2") (some "B"), LRow.mk (some "M2") none] "M2").length
        (merchantRowsOf [LRow.mk (some "M2") (some "B"), LRow.mk (some "M2") none] "M2").length
        + 2 ∧
    (∀ i, 2 ≤ i →
      (leftDataOf [LRow.mk (some "M2") (some "B"), LRow.mk (some "M2") none] "M2").length ≤
        i - 2 →
      ∀ row,
        (marketWorksheet [LRow.mk (some "M2") (some "B"), LRow.mk (some "M2") none]
          "M2")[i]? = some row →
        row.dataOfCouponUsed = Cell.s "" ∧ row.c2 = Cell.s "") ∧
    (∀ i, 2 ≤ i →
      (merchantRowsOf [LRow.mk (some "M2") (some "B"), LRow.mk (some "M2") none] "M2").length ≤
        i - 2 →
      ∀ row,
        (marketWorksheet [LRow.mk (some "M2") (some "B"), LRow.mk (some "M2") none]
          "M2")[i]? = some row →
        row.merchantList = Cell.s "" ∧ row.c5 = Cell.s "" ∧ row.c6 = Cell.s "" ∧
          row.noOfN = Cell.s "")) :=
  ⟨by decide,
    c9_worksheet_shape [LRow.mk (some "M2") (some "B"), LRow.mk (some "M2") none] "M2"
      (by decide)⟩

/-! ### Claim C5 : the Distributed-Coupon table -/

/-- Claim C5: whenever the Distributed-Coupon table is produced, it has one
row per distinct client name; every row's `Unused` is 0, its `Total` equals
its `Used`, and its `Used` is the number of batch rows of that row's client. -/
theorem c5_distributed_coupon (batch : List WRow) (tbl : List DRow)
    (h : generate_distributed_coupon_table batch = some tbl) :
    tbl.length = (clientKeys batch).length ∧
    ∀ p ∈ (clientKeys batch).zip tbl,
      p.2.unused = 0 ∧ p.2.total = p.2.used ∧ p.2.used = clientCount batch p.1 := by
  unfold generate_distributed_coupon_table at h
  by_cases hb : batch.isEmpty = true
  · rw [if_pos hb] at h
    exact absurd h (by simp)
  · rw [if_neg hb] at h
    refine ⟨optTraverse_length h, ?_⟩
    intro p hp
    have hf := optTraverse_zip h p hp
    cases hg : get_client_short_name (some p.1) with
    | none => rw [hg] at hf; exact absurd hf (by simp)
    | some s =>
      rw [hg] at hf
      have h2 : p.2 = DRow.mk s (clientCount batch p.1) 0 (clientCount batch p.1) := by
        simpa using hf.symm
      rw [h2]
      exact ⟨rfl, rfl, rfl⟩

/-- Claim C5 witness: the table invariants at a concrete two-row batch for a
single client. -/
theorem c5_distributed_coupon_witness :
    (generate_distributed_coupon_table [WRow.mk (some "PLK X") 5, WRow.mk (some "PLK X") 7] =
      some [DRow.mk "PLK" 2 0 2]) ∧
    ([DRow.mk "PLK" 2 0 2].length =
      (clientKeys [WRow.mk (some "PLK X") 5, WRow.mk (some "PLK X") 7]).length ∧
    ∀ p ∈ (clientKeys [WRow.mk (some "PLK X") 5, WRow.mk (some "PLK X") 7]).zip
        [DRow.mk "PLK" 2 0 2],
      p.2.unused = 0 ∧ p.2.total = p.2.used ∧
        p.2.used = clientCount [WRow.mk (some "PLK X") 5, WRow.mk (some "PLK X") 7] p.1) :=
  ⟨by decide,
    c5_distributed_coupon [WRow.mk (some "PLK X") 5, WRow.mk (some "PLK X") 7]
      [DRow.mk "PLK" 2 0 2] (by decide)⟩

/-! ### Claim C7 : structure and order of the Pivot output -/

/-- Claim C7: the Pivot output is a concatenation of market blocks in strictly
ascending market order, covering exactly the markets present in the ledger;
each block is one total row (market name, empty tenant field, market row
count) followed by one row per distinct merchant of that market (empty market
field, aliased merchant name, group count), in non-increasing count order. -/
theorem c7_pivot_structure (ledger : List LRow) :
    ∃ blocks : List (String × List (String × Nat)),
      generate_pivot_worksheet ledger =
        blocks.flatMap (fun b => PRow.mk b.1 "" (marketCount ledger b.1) ::
          b.2.map (fun p => PRow.mk "" p.1 p.2)) ∧
      (blocks.map Prod.fst).Pairwise (fun a b => strLeB a b = true ∧ a ≠ b) ∧
      (∀ m, m ∈ blocks.map Prod.fst ↔ ∃ r ∈ ledger, r.market = some m) ∧
      ∀ b ∈ blocks,
        b.2.Perm ((shopsOfMarket ledger b.1).map
          (fun s => (replaceMarae s, marketShopCount ledger b.1 s))) ∧
        (b.2.map Prod.snd).Pairwise (· ≥ ·) := by
  have hmap : (pivotBlocks ledger).map Prod.fst = marketsSorted ledger := by
    unfold pivotBlocks
    rw [List.map_map]
    have hcomp : (Prod.fst ∘ fun m : String => (m, tenantRowsOf ledger m)) =
        fun m : String => m := rfl
    rw [hcomp]
    simp
  refine ⟨pivotBlocks ledger, rfl, ?_, ?_, ?_⟩
  · rw [hmap]
    have hsorted : (marketsSorted ledger).Pairwise (fun a b => strLeB a b = true) :=
      pairwise_sortLe strLeB_trans strLeB_total _
    have hnodup : (marketsSorted ledger).Pairwise (fun a b => a ≠ b) :=
      nodup_sortLe nodup_dedupFirst
    exact hsorted.and hnodup
  · intro m
    rw [hmap]
    simp [marketsSorted, mem_sortLe, mem_dedupFirst, List.mem_filterMap]
  · intro b hb
    obtain ⟨m, hm, rfl⟩ := List.mem_map.mp hb
    constructor
    · exact sortLe_perm cntGe _
    · simp only [tenantRowsOf]
      exact pairwise_snd_ge_sortLe _

/-- Claim C7 witness: the spec's own example ledger — the Pivot output is the
expected three rows, and the structural theorem applies to it. -/
theorem c7_pivot_structure_witness :
    generate_pivot_worksheet
        [LRow.mk (some "marketX") (some "merchantA"), LRow.mk (some "marketX") (some "merchantA"),
          LRow.mk (some "marketX") (some "merchantB")] =
      [PRow.mk "marketX" "" 3, PRow.mk "" "merchantA" 2, PRow.mk "" "merchantB" 1] ∧
    (∃ blocks : List (String × List (String × Nat)),
      generate_pivot_worksheet
          [LRow.mk (some "marketX") (some "merchantA"),
            LRow.mk (some "marketX") (some "merchantA"),
            LRow.mk (some "marketX") (some "merchantB")] =
        blocks.flatMap (fun b =>
          PRow.mk b.1 ""
            (marketCount
              [LRow.mk (some "marketX") (some "merchantA"),
                LRow.mk (some "marketX") (some "merchantA"),
                LRow.mk (some "marketX") (some "merchantB")] b.1) ::
            b.2.map (fun p => PRow.mk "" p.1 p.2)) ∧
      (blocks.map Prod.fst).Pairwise (fun a b => strLeB a b = true ∧ a ≠ b) ∧
      (∀ m, m ∈ blocks.map Prod.fst ↔
        ∃ r ∈ [LRow.mk (some "marketX") (some "merchantA"),
          LRow.mk (some "marketX") (some "merchantA"),
          LRow.mk (some "marketX") (some "merchantB")], r.market = some m) ∧
      ∀ b ∈ blocks,
        b.2.Perm ((shopsOfMarket
            [LRow.mk (some "marketX") (some "merchantA"),
              LRow.mk (some "marketX") (some "merchantA"),
              LRow.mk (some "marketX") (some "merchantB")] b.1).map
          (fun s => (replaceMarae s,
            marketShopCount
              [LRow.mk (some "marketX") (some "merchantA"),
                LRow.mk (some "marketX") (some "merchantA"),
                LRow.mk (some "marketX") (some "merchantB")] b.1 s))) ∧
        (b.2.map Prod.snd).Pairwise (· ≥ ·)) :=
  ⟨by decide,
    c7_pivot_structure
      [LRow.mk (some "marketX") (some "merchantA"), LRow.mk (some "marketX") (some "merchantA"),
        LRow.mk (some "marketX") (some "merchantB")]⟩

/-! ### Claim C2 : the Coupon-Purchased table -/

/-- Claim C2, counterexample: a batch with one empty-string client name and
one missing (`NaN`) client name, both with coupon value 5.  The `NaN` row is
dropped by `groupby`, so the produced table is the single row `"Unknown"`
(derived from `""`) with cell 1 — yet two batch rows have derived short name
`"Unknown"` (the missing name also derives `"Unknown"`) and value 5, refuting
the claimed cell equation. -/
theorem c2_coupon_counterexample :
    generate_coupon_purchased_table [WRow.mk (some "") 5, WRow.mk none 5] =
      some [("Unknown", [(5, 1)])] ∧
    shortCellCount [WRow.mk (some "") 5, WRow.mk none 5] "Unknown" 5 = 2 ∧
    ¬ (∀ e ∈ (generate_coupon_purchased_table [WRow.mk (some "") 5, WRow.mk none 5]).getD [],
        ∀ p ∈ e.2,
          p.2 = shortCellCount [WRow.mk (some "") 5, WRow.mk none 5] e.1 p.1) := by
  decide

/-- Claim C2 (amended): for every batch whose rows all carry a present client
name, whenever the Coupon-Purchased table is produced, distinct client names
necessarily derived distinct short names (a collision makes `to_dict('index')`
raise `ValueError`, so no table is produced), each cell `(client, value)`
equals the number of batch rows whose derived short name is `client` and
whose coupon value is `value`, and every (short name, value) pair of the
batch appears as a row/column cell. -/
theorem c2_coupon_amended (batch : List WRow)
    (hpres : ∀ r ∈ batch, r.client.isSome)
    (tbl : List (String × List (Nat × Nat)))
    (h : generate_coupon_purchased_table batch = some tbl) :
    (clientKeys batch).Pairwise
      (fun c1 c2 => get_client_short_name (some c1) ≠ get_client_short_name (some c2)) ∧
    (∀ e ∈ tbl, ∀ p ∈ e.2, p.2 = shortCellCount batch e.1 p.1) ∧
    (∀ r ∈ batch, ∀ c, r.client = some c →
      ∃ s cells, get_client_short_name (some c) = some s ∧ (s, cells) ∈ tbl ∧
        (r.value, shortCellCount batch s r.value) ∈ cells) := by
  unfold generate_coupon_purchased_table at h
  by_cases hb : batch.isEmpty = true
  · rw [if_pos hb] at h
    exact absurd h (by simp)
  · rw [if_neg hb] at h
    cases ht : optTraverse (fun c =>
        (get_client_short_name (some c)).map (fun s =>
          (s, (valueKeys batch).map (fun v => (v, pairCount batch c v)))))
        (clientKeys batch) with
    | none =>
      rw [ht] at h
      exact absurd h (by simp)
    | some t =>
      rw [ht] at h
      have h2 : (if (t.map Prod.fst).Nodup then some t else none) = some tbl := h
      by_cases hnd : (t.map Prod.fst).Nodup
      · rw [if_pos hnd] at h2
        injection h2 with h2
        subst h2
        have hinj : (clientKeys batch).Pairwise
            (fun c1 c2 => get_client_short_name (some c1) ≠ get_client_short_name (some c2)) := by
          have hR : t.Pairwise (fun e1 e2 => e1.1 ≠ e2.1) := List.pairwise_map.mp hnd
          refine optTraverse_pairwise ?_ ht hR
          intro c1 c2 e1 e2 hf1 hf2 hRe
          cases hg1 : get_client_short_name (some c1) with
          | none => rw [hg1] at hf1; exact absurd hf1 (by simp)
          | some s1 =>
            cases hg2 : get_client_short_name (some c2) with
            | none => rw [hg2] at hf2; exact absurd hf2 (by simp)
            | some s2 =>
              rw [hg1] at hf1
              rw [hg2] at hf2
              have he1 : e1 = (s1, (valueKeys batch).map
                  (fun v => (v, pairCount batch c1 v))) := by
                simpa using hf1.symm
              have he2 : e2 = (s2, (valueKeys batch).map
                  (fun v => (v, pairCount batch c2 v))) := by
                simpa using hf2.symm
              intro heq
              injection heq with heq
              apply hRe
              rw [he1, he2]
              exact heq
        refine ⟨hinj, ?_, ?_⟩
        · intro e he p hp
          obtain ⟨c, hc, hfc⟩ := optTraverse_mem ht e he
          cases hg : get_client_short_name (some c) with
          | none => rw [hg] at hfc; exact absurd hfc (by simp)
          | some s =>
            rw [hg] at hfc
            have he2 : e = (s, (valueKeys batch).map (fun v => (v, pairCount batch c v))) := by
              simpa using hfc.symm
            subst he2
            obtain ⟨v, hv, hp2⟩ := List.mem_map.mp hp
            rw [← hp2]
            exact pairCount_eq_shortCellCount batch hpres hinj hc hg v
        · intro r hr c hrc
          have hc : c ∈ clientKeys batch := mem_clientKeys.mpr ⟨r, hr, hrc⟩
          obtain ⟨e, he, hfc⟩ := optTraverse_forall ht c hc
          cases hg : get_client_short_name (some c) with
          | none => rw [hg] at hfc; exact absurd hfc (by simp)
          | some s =>
            rw [hg] at hfc
            have he2 : e = (s, (valueKeys batch).map (fun v => (v, pairCount batch c v))) := by
              simpa using hfc.symm
            refine ⟨s, (valueKeys batch).map (fun v => (v, pairCount batch c v)), rfl, ?_, ?_⟩
            · rw [← he2]
              exact he
            · have hvmem : r.value ∈ valueKeys batch :=
                mem_valueKeys.mpr ⟨r, hr, by simp [hrc], rfl⟩
              refine List.mem_map.mpr ⟨r.value, hvmem, ?_⟩
              rw [pairCount_eq_shortCellCount batch hpres hinj hc hg r.value]
      · rw [if_neg hnd] at h2
        exact absurd h2 (by simp)

/-- Claim C2 witness: the amended statement at a concrete produced table for
a batch with two clients whose short names (`"SJS"`, `"KTMSS"`) are distinct. -/
theorem c2_coupon_amended_witness :
    (∀ r ∈ ([WRow.mk (some "SJS Alpha") 10, WRow.mk (some "SJS Alpha") 10,
        WRow.mk (some "KTMSS B") 20] : List WRow), r.client.isSome) ∧
    ((clientKeys [WRow.mk (some "SJS Alpha") 10, WRow.mk (some "SJS Alpha") 10,
        WRow.mk (some "KTMSS B") 20]).Pairwise
      (fun c1 c2 => get_client_short_name (some c1) ≠ get_client_short_name (some c2)) ∧
    (∀ e ∈ [("KTMSS", [(10, 0), (20, 1)]), ("SJS", [(10, 2), (20, 0)])], ∀ p ∈ e.2,
      p.2 = shortCellCount
        [WRow.mk (some "SJS Alpha") 10, WRow.mk (some "SJS Alpha") 10,
          WRow.mk (some "KTMSS B") 20] e.1 p.1) ∧
    (∀ r ∈ ([WRow.mk (some "SJS Alpha") 10, WRow.mk (some "SJS Alpha") 10,
        WRow.mk (some "KTMSS B") 20] : List WRow), ∀ c, r.client = some c →
      ∃ s cells, get_client_short_name (some c) = some s ∧
        (s, cells) ∈ [("KTMSS", [(10, 0), (20, 1)]), ("SJS", [(10, 2), (20, 0)])] ∧
        (r.value, shortCellCount
          [WRow.mk (some "SJS Alpha") 10, WRow.mk (some "SJS Alpha") 10,
            WRow.mk (some "KTMSS B") 20] s r.value) ∈ cells)) :=
  ⟨by decide,
    c2_coupon_amended
      [WRow.mk (some "SJS Alpha") 10, WRow.mk (some "SJS Alpha") 10,
        WRow.mk (some "KTMSS B") 20]
      (by decide)
      [("KTMSS", [(10, 0), (20, 1)]), ("SJS", [(10, 2), (20, 0)])]
      (by decide)⟩

end DCReports
